import Mathlib

/-!
Verification of the variant planner of django-lazy-srcset.

The definitions below are a shallow embedding of
`lazy_srcset/templatetags/lazy_srcset.py`:

* `lists_to_dict` embeds the helper of the same name (positional sizes
  aligned to configured breakpoints, padded with a default value);
* `get_svg_dimensions` embeds the SVG width/height extraction;
* `baseWidth`, `stepBP`, `mergedWidths`, `sizesList`, `decimate` and
  `survivors` embed the body of the `srcset` template tag: clamping of
  `max_width`, the breakpoint loop building `widths_dict` and the `sizes`
  attribute, the default-size entry, and the threshold decimation loop.

Python dictionaries are modelled as association lists with
dictionary-update semantics (`dictInsert` replaces the value of an
existing key in place and appends new keys); iteration over
`sorted(dict.keys())` is modelled by sorting the association list by key.
-/

/-- Size units accepted by `sanitize_size`: `px` or `vw`. -/
inductive SizeUnit where
  | px
  | vw
deriving DecidableEq

/-- Rendering of a unit, as it appears in the `sizes` attribute. -/
def unitStr : SizeUnit → String
  | SizeUnit.px => "px"
  | SizeUnit.vw => "vw"

/-- Rendering of `{value}{unit}`, e.g. `50vw`, used for sizes entries. -/
def renderSize (v : Nat) (u : SizeUnit) : String :=
  Nat.repr v ++ unitStr u

/-- Rendering of one breakpoint entry `(max-width: {bp}px) {value}{unit}`
of the `sizes` attribute (line 279-281 of the template tag). -/
def sizeEntry (bp v : Nat) (u : SizeUnit) : String :=
  "(max-width: " ++ Nat.repr bp ++ "px) " ++ renderSize v u

/-- Python dictionary assignment `d[k] = v` on an association list: the
value of an existing key is replaced in place, a new key is appended. -/
def dictInsert {β : Type} (d : List (Nat × β)) (k : Nat) (v : β) : List (Nat × β) :=
  match d with
  | [] => [(k, v)]
  | (k2, v2) :: rest => if k2 = k then (k, v) :: rest else (k2, v2) :: dictInsert rest k v

/-- Python dictionary lookup `d[k]` on an association list. -/
def dlookup {β : Type} (d : List (Nat × β)) (k : Nat) : Option β :=
  match d with
  | [] => none
  | (k2, v) :: rest => if k2 = k then some v else dlookup rest k

/-- Embedding of `lists_to_dict(keys, values, default_value)` (lines
20-30): assign `values[i]` to `keys[i]` pairwise, then assign
`default_value` to every remaining key. -/
def lists_to_dict (keys values : List Nat) (default_value : Nat) : List (Nat × Nat) :=
  let d := (keys.zip values).foldl (fun d p => dictInsert d p.1 p.2) ([] : List (Nat × Nat))
  (keys.drop values.length).foldl (fun d k => dictInsert d k default_value) d

/-- Modelled from the spec wording of claim C6: the i-th positional size
is assigned to the i-th breakpoint of the config taken in ascending
breakpoint order. Used only to compare against `lists_to_dict`. -/
def lists_to_dict_specAscending (keys values : List Nat) (default_value : Nat) : List (Nat × Nat) :=
  lists_to_dict (List.insertionSort (fun a b => a ≤ b) keys) values default_value

/-- Attributes of an SVG root element that `get_svg_dimensions` reads. -/
structure SvgRoot where
  widthAttr : Option String
  heightAttr : Option String
  viewBox : Option String

/-- Split a character list at every occurrence of `c`, keeping empty
segments, exactly like Python `str.split(" ")` with a one-character
separator. -/
def splitOnChar (c : Char) : List Char → List (List Char)
  | [] => [[]]
  | a :: rest =>
    match splitOnChar c rest with
    | [] => [[]]
    | h :: t => if a = c then [] :: h :: t else (a :: h) :: t

/-- Embedding of Python `s.split(" ")` for strings. -/
def splitSpaces (s : String) : List String :=
  (splitOnChar ' ' s.toList).map String.mk

/-- Embedding of the regex strip `re.sub(r"[^\d.]", "", s)`: keep only
digits and dots. -/
def stripUnits (s : String) : String :=
  String.mk (s.toList.filter (fun c => c.isDigit || c = '.'))

/-- Embedding of `get_svg_dimensions` (lines 33-56): take the `width` and
`height` attributes; if either is missing, re-read both from the
`viewBox` attribute split on single spaces, which must yield exactly four
tokens (otherwise the tuple unpacking fails and the attribute values are
kept); finally strip unit characters from whatever was found. -/
def get_svg_dimensions (root : SvgRoot) : Option String × Option String :=
  let w0 := root.widthAttr
  let h0 := root.heightAttr
  let wh :=
    if w0.isNone || h0.isNone then
      match root.viewBox with
      | none => (w0, h0)
      | some vb =>
        match splitSpaces vb with
        | [_, _, w, h] => (some w, some h)
        | _ => (w0, h0)
    else (w0, h0)
  (wh.1.map stripUnits, wh.2.map stripUnits)

/-- Breakpoint entry of the sanitized sizes dictionary: breakpoint,
value, unit, i.e. one binding of Python `{1920: (50, "vw")}`. -/
abbrev BPEntry := Nat × Nat × SizeUnit

/-- Ascending-by-breakpoint iteration order of the sizes dictionary,
modelling `for breakpoint_width in sorted(sizes_dict.keys())`. -/
def bpLE (a b : BPEntry) : Prop := a.1 ≤ b.1

instance : DecidableRel bpLE := fun a b => Nat.decLe a.1 b.1

instance : IsTotal BPEntry bpLE := ⟨fun a b => Nat.le_total a.1 b.1⟩

instance : IsTrans BPEntry bpLE := ⟨fun _ _ _ h1 h2 => Nat.le_trans h1 h2⟩

/-- Descending-by-width iteration order of `widths_dict`, modelling
`for width in reversed(sorted(widths_dict.keys()))`. -/
def widthGE (a b : Nat × Bool) : Prop := b.1 ≤ a.1

instance : DecidableRel widthGE := fun a b => Nat.decLe b.1 a.1

instance : IsTotal (Nat × Bool) widthGE := ⟨fun a b => Or.symm (Nat.le_total a.1 b.1)⟩

instance : IsTrans (Nat × Bool) widthGE := ⟨fun _ _ _ h1 h2 => Nat.le_trans h2 h1⟩

/-- Inputs of one run of the planner part of the `srcset` template tag,
after config resolution and size sanitization. -/
structure PlanInput where
  sourceWidth : Nat
  maxWidth : Option Nat
  threshold : Nat
  defaultSize : Option (Nat × SizeUnit)
  sizeSpec : List BPEntry

/-- Embedding of lines 264-267: `max_width` is replaced by the source
width when it is `None` or exceeds the source width. -/
def baseWidth (inp : PlanInput) : Nat :=
  match inp.maxWidth with
  | none => inp.sourceWidth
  | some m => if m > inp.sourceWidth then inp.sourceWidth else m

/-- Exact ceiling of `n / 100`, embedding `math.ceil(breakpoint_width * width / 100)`. -/
def ceil100 (n : Nat) : Nat := (n + 99) / 100

/-- State threaded through the breakpoint loop (lines 272-292):
`widths_dict`, the `sizes` list, and the loop variables `width, units`
left over for the default-size entry. -/
structure BPState where
  widths : List (Nat × Bool)
  sizes : List String
  lastVal : Nat
  lastUnit : SizeUnit

/-- Embedding of one iteration of the breakpoint loop: append the sizes
entry; for `px` units record the value as a required width; for `vw`
units record `ceil(bp * value / 100)` as an optional width, but only when
it is strictly below the clamped `max_width`. -/
def stepBP (maxW : Nat) (st : BPState) (e : BPEntry) : BPState :=
  let sizes2 := st.sizes ++ [sizeEntry e.1 e.2.1 e.2.2]
  match e.2.2 with
  | SizeUnit.px =>
      { widths := dictInsert st.widths e.2.1 true
        sizes := sizes2
        lastVal := e.2.1
        lastUnit := e.2.2 }
  | SizeUnit.vw =>
      let t := ceil100 (e.1 * e.2.1)
      if t < maxW then
        { widths := dictInsert st.widths t false
          sizes := sizes2
          lastVal := e.2.1
          lastUnit := e.2.2 }
      else
        { widths := st.widths
          sizes := sizes2
          lastVal := e.2.1
          lastUnit := e.2.2 }

/-- Sizes dictionary entries in ascending breakpoint order. -/
def ascEntries (spec : List BPEntry) : List BPEntry :=
  List.insertionSort bpLE spec

/-- State before the breakpoint loop: `widths_dict = {max_width: True}`
(line 270), empty `sizes`, loop variables initialised to `"100", "vw"`
(line 274). -/
def initState (inp : PlanInput) : BPState :=
  { widths := [(baseWidth inp, true)]
    sizes := []
    lastVal := 100
    lastUnit := SizeUnit.vw }

/-- State after the whole breakpoint loop. -/
def afterBPs (inp : PlanInput) : BPState :=
  (ascEntries inp.sizeSpec).foldl (stepBP (baseWidth inp)) (initState inp)

/-- The merged `widths_dict` after the breakpoint loop: width mapped to
whether an image of that width must be generated. -/
def mergedWidths (inp : PlanInput) : List (Nat × Bool) :=
  (afterBPs inp).widths

/-- Value and unit of the trailing default sizes entry (lines 294-297):
an explicit `default_size` override when present, else the loop-leftover
value and unit of the greatest breakpoint (or the initial `100vw` when
there is no breakpoint). -/
def defaultSizePair (inp : PlanInput) : Nat × SizeUnit :=
  match inp.defaultSize with
  | some s => s
  | none => ((afterBPs inp).lastVal, (afterBPs inp).lastUnit)

/-- The full `sizes` attribute list: one entry per breakpoint ascending
plus the trailing default entry. -/
def sizesList (inp : PlanInput) : List String :=
  (afterBPs inp).sizes ++ [renderSize (defaultSizePair inp).1 (defaultSizePair inp).2]

/-- Entries of `widths_dict` in descending width order, the iteration
order of the generation loop (line 302). -/
def descWidths (inp : PlanInput) : List (Nat × Bool) :=
  List.insertionSort widthGE (mergedWidths inp)

/-- Embedding of the decimation loop (lines 300-318): an optional width
closer than `threshold` to the last kept width is skipped; every kept
width becomes the new comparison point `current_width`. The comparison is
done in `Int` exactly as Python subtracts machine integers. -/
def decimate (threshold : Nat) : Nat → List (Nat × Bool) → List Nat
  | _, [] => []
  | current, (w, req) :: rest =>
    if req = false ∧ (current : Int) - (w : Int) < (threshold : Int) then
      decimate threshold current rest
    else
      w :: decimate threshold w rest

/-- Widths of the images the planner actually generates, in the order the
generation loop emits them (descending). -/
def survivors (inp : PlanInput) : List Nat :=
  decimate inp.threshold (baseWidth inp) (descWidths inp)

/-- Width of the variant whose url, width and height populate the `src`,
`width` and `height` attributes: `output_imgs[0]` (lines 332-339), the
first width emitted by the generation loop. -/
def renderedSrcWidth (inp : PlanInput) : Option Nat :=
  (survivors inp).head?

/-- Predicate: processing entry `e` writes `required = False` at width
`w`, i.e. `e` is a vw-unit entry whose candidate width is `w` and lies
strictly below the clamped `max_width`. -/
def writesFalse (maxW : Nat) (e : BPEntry) (w : Nat) : Prop :=
  e.2.2 = SizeUnit.vw ∧ ceil100 (e.1 * e.2.1) = w ∧ ceil100 (e.1 * e.2.1) < maxW


/-- Value and unit pair of the greatest breakpoint of the size spec, or
the initial `100, vw` loop values when the spec is empty. -/
def lastBPSize (spec : List BPEntry) : Nat × SizeUnit :=
  ((ascEntries spec).map (fun e => (e.2.1, e.2.2))).getLastD (100, SizeUnit.vw)

/-- The rendered trailing default entry of the sizes list: the explicit
`default_size` override when given, else the value and unit of the
greatest breakpoint. -/
def defaultEntryStr (inp : PlanInput) : String :=
  match inp.defaultSize with
  | some s => renderSize s.1 s.2
  | none => renderSize (lastBPSize inp.sizeSpec).1 (lastBPSize inp.sizeSpec).2

/-! ### Concrete planner inputs used as examples and counterexamples -/

/-- The worked example of the spec: breakpoints 1920 at 25vw and 1024 at
50vw, source width 2000, no `max_width`, threshold 0. -/
def examplePlan : PlanInput :=
  ⟨2000, none, 0, none, [(1920, (25, SizeUnit.vw)), (1024, (50, SizeUnit.vw))]⟩

/-- A plan whose only size is an explicit 300px at breakpoint 50, with a
source image only 100 px wide. -/
def pxOversizePlan : PlanInput :=
  ⟨100, none, 0, none, [(50, (300, SizeUnit.px))]⟩

/-- A plan where the px entry at breakpoint 100 claims width 50 as
required and the vw entry at breakpoint 200 computes the same width 50
(ceil(200 * 25 / 100) = 50), with a huge threshold. -/
def pxThenVwPlan : PlanInput :=
  ⟨1000, none, 10000, none, [(100, (50, SizeUnit.px)), (200, (25, SizeUnit.vw))]⟩

/-- A plan with a single explicit 300px size and no colliding vw entry. -/
def pxOnlyPlan : PlanInput :=
  ⟨1000, none, 69, none, [(640, (300, SizeUnit.px))]⟩

/-- An SVG root with no width or height attributes and a four-token
viewBox. -/
def exampleSvg : SvgRoot := ⟨none, none, some "0 0 100 50"⟩

/-! ### Association-list dictionary lemmas -/

theorem dlookup_dictInsert_self {β : Type} (d : List (Nat × β)) (k : Nat) (v : β) :
    dlookup (dictInsert d k v) k = some v := by
  induction d with
  | nil => simp [dictInsert, dlookup]
  | cons p rest ih =>
    obtain ⟨k2, v2⟩ := p
    by_cases h : k2 = k
    · simp [dictInsert, dlookup, h]
    · simp [dictInsert, dlookup, h, ih]

theorem dlookup_dictInsert_ne {β : Type} (d : List (Nat × β)) (k k2 : Nat) (v : β)
    (h : k2 ≠ k) : dlookup (dictInsert d k v) k2 = dlookup d k2 := by
  induction d with
  | nil => simp [dictInsert, dlookup, Ne.symm h]
  | cons p rest ih =>
    obtain ⟨k3, v3⟩ := p
    by_cases h3 : k3 = k
    · subst h3
      simp [dictInsert, dlookup, Ne.symm h]
    · simp [dictInsert, dlookup, h3, ih]

theorem mem_dictInsert {β : Type} (d : List (Nat × β)) (k : Nat) (v : β) (p : Nat × β)
    (h : p ∈ dictInsert d k v) : p = (k, v) ∨ p ∈ d := by
  induction d with
  | nil =>
    simp only [dictInsert, List.mem_singleton] at h
    exact Or.inl h
  | cons q rest ih =>
    obtain ⟨k2, v2⟩ := q
    by_cases h2 : k2 = k
    · simp only [dictInsert, if_pos h2, List.mem_cons] at h
      rcases h with h | h
      · exact Or.inl h
      · exact Or.inr (List.mem_cons_of_mem _ h)
    · simp only [dictInsert, if_neg h2, List.mem_cons] at h
      rcases h with h | h
      · exact Or.inr (h ▸ List.mem_cons_self _ _)
      · rcases ih h with h3 | h3
        · exact Or.inl h3
        · exact Or.inr (List.mem_cons_of_mem _ h3)

theorem mem_keys_dictInsert {β : Type} (d : List (Nat × β)) (k : Nat) (v : β) (x : Nat)
    (h : x ∈ (dictInsert d k v).map Prod.fst) : x = k ∨ x ∈ d.map Prod.fst := by
  rcases List.mem_map.mp h with ⟨p, hp, hx⟩
  rcases mem_dictInsert d k v p hp with h2 | h2
  · exact Or.inl (by rw [← hx, h2])
  · exact Or.inr (List.mem_map.mpr ⟨p, h2, hx⟩)

theorem nodup_keys_dictInsert {β : Type} (d : List (Nat × β)) (k : Nat) (v : β)
    (h : (d.map Prod.fst).Nodup) : ((dictInsert d k v).map Prod.fst).Nodup := by
  induction d with
  | nil => simp [dictInsert]
  | cons p rest ih =>
    obtain ⟨k2, v2⟩ := p
    simp only [List.map_cons, List.nodup_cons] at h
    by_cases h2 : k2 = k
    · subst h2
      simpa [dictInsert] using h
    · simp only [dictInsert, if_neg h2, List.map_cons, List.nodup_cons]
      refine ⟨fun hmem => ?_, ih h.2⟩
      rcases mem_keys_dictInsert rest k v k2 hmem with h3 | h3
      · exact h2 h3
      · exact h.1 h3

theorem mem_of_dlookup_eq_some {β : Type} (d : List (Nat × β)) (k : Nat) (v : β)
    (h : dlookup d k = some v) : (k, v) ∈ d := by
  induction d with
  | nil => simp [dlookup] at h
  | cons p rest ih =>
    obtain ⟨k2, v2⟩ := p
    by_cases h2 : k2 = k
    · subst h2
      simp only [dlookup, if_true, eq_self_iff_true, Option.some.injEq] at h
      subst h
      exact List.mem_cons_self _ _
    · simp only [dlookup, if_neg h2] at h
      exact List.mem_cons_of_mem _ (ih h)

theorem dlookup_eq_some_of_mem {β : Type} (d : List (Nat × β)) (k : Nat) (v : β)
    (hmem : (k, v) ∈ d) (hnd : (d.map Prod.fst).Nodup) : dlookup d k = some v := by
  induction d with
  | nil => simp at hmem
  | cons p rest ih =>
    obtain ⟨k2, v2⟩ := p
    simp only [List.map_cons, List.nodup_cons] at hnd
    rcases List.mem_cons.mp hmem with h | h
    · injection h.symm with hk hv
      subst hk
      subst hv
      simp [dlookup]
    · have hne : k2 ≠ k := by
        intro hk
        subst hk
        exact hnd.1 (List.mem_map.mpr ⟨(k2, v), h, rfl⟩)
      simp only [dlookup, if_neg hne]
      exact ih h hnd.2

theorem dictInsert_of_not_mem {β : Type} (d : List (Nat × β)) (k : Nat) (v : β)
    (h : k ∉ d.map Prod.fst) : dictInsert d k v = d ++ [(k, v)] := by
  induction d with
  | nil => simp [dictInsert]
  | cons p rest ih =>
    obtain ⟨k2, v2⟩ := p
    simp only [List.map_cons, List.mem_cons, not_or] at h
    have hne : ¬ k2 = k := fun hk => h.1 hk.symm
    simp [dictInsert, hne, ih h.2]

/-! ### Breakpoint-loop lemmas -/

theorem foldl_stepBP_inv (maxW : Nat) (P : BPState → Prop) :
    ∀ (l : List BPEntry) (st : BPState), P st →
      (∀ st2 e, e ∈ l → P st2 → P (stepBP maxW st2 e)) →
      P (l.foldl (stepBP maxW) st)
  | [], _, h0, _ => h0
  | e :: rest, st, h0, hstep =>
    foldl_stepBP_inv maxW P rest (stepBP maxW st e)
      (hstep st e (List.mem_cons_self _ _) h0)
      (fun st2 e2 he2 => hstep st2 e2 (List.mem_cons_of_mem _ he2))

theorem stepBP_last (maxW : Nat) (st : BPState) (e : BPEntry) :
    (stepBP maxW st e).lastVal = e.2.1 ∧ (stepBP maxW st e).lastUnit = e.2.2 := by
  obtain ⟨bp, v, u⟩ := e
  cases u with
  | px => simp [stepBP]
  | vw =>
    simp only [stepBP]
    split <;> simp

theorem stepBP_sizes (maxW : Nat) (st : BPState) (e : BPEntry) :
    (stepBP maxW st e).sizes = st.sizes ++ [sizeEntry e.1 e.2.1 e.2.2] := by
  obtain ⟨bp, v, u⟩ := e
  cases u with
  | px => simp [stepBP]
  | vw =>
    simp only [stepBP]
    split <;> simp

theorem foldl_stepBP_sizes (maxW : Nat) :
    ∀ (l : List BPEntry) (st : BPState),
      (l.foldl (stepBP maxW) st).sizes
        = st.sizes ++ l.map (fun e => sizeEntry e.1 e.2.1 e.2.2)
  | [], st => by simp
  | e :: rest, st => by
    rw [List.foldl_cons, foldl_stepBP_sizes maxW rest, stepBP_sizes]
    simp

theorem foldl_stepBP_lastPair (maxW : Nat) :
    ∀ (l : List BPEntry) (st : BPState),
      ((l.foldl (stepBP maxW) st).lastVal, (l.foldl (stepBP maxW) st).lastUnit)
        = (l.map (fun e => (e.2.1, e.2.2))).getLastD (st.lastVal, st.lastUnit)
  | [], st => by simp
  | e :: rest, st => by
    rw [List.foldl_cons, foldl_stepBP_lastPair maxW rest, List.map_cons,
      List.getLastD_cons, (stepBP_last maxW st e).1, (stepBP_last maxW st e).2]

/-! ### Decimation lemmas -/

theorem decimate_sublist (θ : Nat) :
    ∀ (c : Nat) (l : List (Nat × Bool)), List.Sublist (decimate θ c l) (l.map Prod.fst)
  | _, [] => by simp [decimate]
  | c, (w, req) :: rest => by
    simp only [decimate, List.map_cons]
    split
    · exact (decimate_sublist θ c rest).cons _
    · exact (decimate_sublist θ w rest).cons₂ _

theorem mem_decimate_of_required (θ : Nat) :
    ∀ (c : Nat) (l : List (Nat × Bool)) (w : Nat),
      (w, true) ∈ l → w ∈ decimate θ c l
  | _, [], w => by simp
  | c, (w2, req) :: rest, w => fun hmem => by
    simp only [decimate]
    rcases List.mem_cons.mp hmem with h | h
    · injection h with h1 h2
      subst h1
      subst h2
      rw [if_neg (by simp)]
      exact List.mem_cons_self _ _
    · split
      · exact mem_decimate_of_required θ c rest w h
      · exact List.mem_cons_of_mem _ (mem_decimate_of_required θ w2 rest w h)

theorem decimate_head (θ : Nat) :
    ∀ (c : Nat) (l : List (Nat × Bool)) (b : Nat) (t : List Nat),
      decimate θ c l = b :: t → (b, true) ∈ l ∨ (θ : Int) ≤ (c : Int) - (b : Int)
  | _, [], b, t => by simp [decimate]
  | c, (w, req) :: rest, b, t => by
    simp only [decimate]
    split
    · intro h
      rcases decimate_head θ c rest b t h with h2 | h2
      · exact Or.inl (List.mem_cons_of_mem _ h2)
      · exact Or.inr h2
    · rename_i hcond
      intro h
      injection h with h1 _
      subst h1
      cases req with
      | true => exact Or.inl (List.mem_cons_self _ _)
      | false =>
        right
        have h3 : ¬ ((c : Int) - (w : Int) < (θ : Int)) := fun hlt => hcond ⟨rfl, hlt⟩
        omega

theorem chain_decimate (θ : Nat) :
    ∀ (l : List (Nat × Bool)) (c : Nat),
      List.Chain' (fun a b => (b, true) ∈ l ∨ (θ : Int) ≤ (a : Int) - (b : Int))
        (decimate θ c l)
  | [], _ => by simp [decimate]
  | (w, req) :: rest, c => by
    simp only [decimate]
    split
    · exact (chain_decimate θ rest c).imp
        (fun a b h => h.imp (fun h2 => List.mem_cons_of_mem _ h2) id)
    · rw [List.chain'_cons']
      constructor
      · intro y hy
        obtain ⟨t, ht⟩ : ∃ t, decimate θ w rest = y :: t := by
          cases hd : decimate θ w rest with
          | nil =>
            rw [hd] at hy
            simp at hy
          | cons a t =>
            rw [hd] at hy
            simp only [List.head?_cons, Option.mem_def, Option.some.injEq] at hy
            exact ⟨t, by rw [hy]⟩
        rcases decimate_head θ w rest y t ht with h2 | h2
        · exact Or.inl (List.mem_cons_of_mem _ h2)
        · exact Or.inr h2
      · exact (chain_decimate θ rest w).imp
          (fun a b h => h.imp (fun h2 => List.mem_cons_of_mem _ h2) id)

/-! ### Invariants of the merged widths dictionary -/

theorem dlookup_merged_base (inp : PlanInput) :
    dlookup (mergedWidths inp) (baseWidth inp) = some true := by
  refine foldl_stepBP_inv (baseWidth inp)
    (fun st => dlookup st.widths (baseWidth inp) = some true)
    (ascEntries inp.sizeSpec) (initState inp) (by simp [initState, dlookup]) ?_
  intro st2 e _ hP
  obtain ⟨bp, v, u⟩ := e
  cases u with
  | px =>
    by_cases hv : v = baseWidth inp
    · subst hv
      simp only [stepBP]
      exact dlookup_dictInsert_self _ _ _
    · simp only [stepBP]
      rw [dlookup_dictInsert_ne _ _ _ _ (fun h => hv h.symm)]
      exact hP
  | vw =>
    simp only [stepBP]
    split
    · rename_i hlt
      have hne : baseWidth inp ≠ ceil100 (bp * v) := by omega
      rw [dlookup_dictInsert_ne _ _ _ _ hne]
      exact hP
    · exact hP

theorem nodup_keys_merged (inp : PlanInput) :
    ((mergedWidths inp).map Prod.fst).Nodup := by
  refine foldl_stepBP_inv (baseWidth inp)
    (fun st => (st.widths.map Prod.fst).Nodup)
    (ascEntries inp.sizeSpec) (initState inp) (by simp [initState]) ?_
  intro st2 e _ hP
  obtain ⟨bp, v, u⟩ := e
  cases u with
  | px =>
    simp only [stepBP]
    exact nodup_keys_dictInsert _ _ _ hP
  | vw =>
    simp only [stepBP]
    split
    · exact nodup_keys_dictInsert _ _ _ hP
    · exact hP

theorem mem_widths_stepBP (maxW : Nat) (st : BPState) (e : BPEntry) (p : Nat × Bool)
    (h : p ∈ (stepBP maxW st e).widths) :
    p ∈ st.widths
      ∨ (e.2.2 = SizeUnit.px ∧ p = (e.2.1, true))
      ∨ (e.2.2 = SizeUnit.vw ∧ p = (ceil100 (e.1 * e.2.1), false)
          ∧ ceil100 (e.1 * e.2.1) < maxW) := by
  obtain ⟨bp, v, u⟩ := e
  cases u with
  | px =>
    simp only [stepBP] at h
    rcases mem_dictInsert _ _ _ _ h with h2 | h2
    · exact Or.inr (Or.inl ⟨rfl, h2⟩)
    · exact Or.inl h2
  | vw =>
    simp only [stepBP] at h
    split at h
    · rename_i hlt
      rcases mem_dictInsert _ _ _ _ h with h2 | h2
      · exact Or.inr (Or.inr ⟨rfl, h2, hlt⟩)
      · exact Or.inl h2
    · exact Or.inl h

theorem mem_merged_le_base_or_px (inp : PlanInput) (p : Nat × Bool)
    (h : p ∈ mergedWidths inp) :
    p.1 ≤ baseWidth inp
      ∨ ∃ e ∈ inp.sizeSpec, e.2.2 = SizeUnit.px ∧ e.2.1 = p.1 := by
  have hinv := foldl_stepBP_inv (baseWidth inp)
    (fun st => ∀ q ∈ st.widths, q.1 ≤ baseWidth inp
      ∨ ∃ e ∈ ascEntries inp.sizeSpec, e.2.2 = SizeUnit.px ∧ e.2.1 = q.1)
    (ascEntries inp.sizeSpec) (initState inp) ?_ ?_
  · rcases hinv p h with h2 | ⟨e, he, h3⟩
    · exact Or.inl h2
    · exact Or.inr ⟨e, ((List.perm_insertionSort bpLE inp.sizeSpec).mem_iff).mp he, h3⟩
  · intro q hq
    simp only [initState, List.mem_singleton] at hq
    subst hq
    exact Or.inl le_rfl
  · intro st2 e he hP q hq
    rcases mem_widths_stepBP _ _ _ _ hq with h2 | ⟨hu, h2⟩ | ⟨hu, h2, h3⟩
    · exact hP q h2
    · subst h2
      exact Or.inr ⟨e, he, hu, rfl⟩
    · subst h2
      exact Or.inl (Nat.le_of_lt h3)

theorem mem_merged_false_lt_base (inp : PlanInput) (p : Nat × Bool)
    (hmem : p ∈ mergedWidths inp) (hopt : p.2 = false) : p.1 < baseWidth inp := by
  have hinv := foldl_stepBP_inv (baseWidth inp)
    (fun st => ∀ q ∈ st.widths, q.2 = false → q.1 < baseWidth inp)
    (ascEntries inp.sizeSpec) (initState inp) ?_ ?_
  · exact hinv p hmem hopt
  · intro q hq
    simp only [initState, List.mem_singleton] at hq
    subst hq
    simp
  · intro st2 e _ hP q hq hq2
    rcases mem_widths_stepBP _ _ _ _ hq with h2 | ⟨_, h2⟩ | ⟨_, h2, h3⟩
    · exact hP q h2 hq2
    · subst h2
      simp at hq2
    · subst h2
      exact h3

theorem mem_merged_false_is_vw (inp : PlanInput) (p : Nat × Bool)
    (hmem : p ∈ mergedWidths inp) (hopt : p.2 = false) :
    ∃ e ∈ inp.sizeSpec, e.2.2 = SizeUnit.vw ∧ ceil100 (e.1 * e.2.1) = p.1 := by
  have hinv := foldl_stepBP_inv (baseWidth inp)
    (fun st => ∀ q ∈ st.widths, q.2 = false →
      ∃ e ∈ ascEntries inp.sizeSpec, e.2.2 = SizeUnit.vw ∧ ceil100 (e.1 * e.2.1) = q.1)
    (ascEntries inp.sizeSpec) (initState inp) ?_ ?_
  · rcases hinv p hmem hopt with ⟨e, he, h3⟩
    exact ⟨e, ((List.perm_insertionSort bpLE inp.sizeSpec).mem_iff).mp he, h3⟩
  · intro q hq
    simp only [initState, List.mem_singleton] at hq
    subst hq
    simp
  · intro st2 e he hP q hq hq2
    rcases mem_widths_stepBP _ _ _ _ hq with h2 | ⟨_, h2⟩ | ⟨hu, h2, _⟩
    · exact hP q h2 hq2
    · subst h2
      simp at hq2
    · subst h2
      exact ⟨e, he, hu, rfl⟩

/-! ### Persistence of required widths through the breakpoint loop -/

theorem dlookup_foldl_true_persists (maxW : Nat) (w : Nat) :
    ∀ (l : List BPEntry) (st : BPState),
      dlookup st.widths w = some true →
      (∀ e ∈ l, ¬ writesFalse maxW e w) →
      dlookup (l.foldl (stepBP maxW) st).widths w = some true
  | [], _, h0, _ => h0
  | e :: rest, st, h0, hW => by
    rw [List.foldl_cons]
    refine dlookup_foldl_true_persists maxW w rest _ ?_
      (fun e2 he2 => hW e2 (List.mem_cons_of_mem _ he2))
    have hhead := hW e (List.mem_cons_self _ _)
    obtain ⟨bp, v, u⟩ := e
    cases u with
    | px =>
      by_cases hv : v = w
      · subst hv
        simp only [stepBP]
        exact dlookup_dictInsert_self _ _ _
      · simp only [stepBP]
        rw [dlookup_dictInsert_ne _ _ _ _ (fun h => hv h.symm)]
        exact h0
    | vw =>
      simp only [stepBP]
      split
      · rename_i hlt
        have hne : w ≠ ceil100 (bp * v) := by
          intro h
          exact hhead ⟨rfl, h.symm, hlt⟩
        rw [dlookup_dictInsert_ne _ _ _ _ hne]
        exact h0
      · exact h0

theorem dlookup_foldl_px_true (maxW : Nat) (w : Nat) :
    ∀ (l : List BPEntry) (st : BPState),
      (∃ e ∈ l, e.2.2 = SizeUnit.px ∧ e.2.1 = w) →
      (∀ e ∈ l, ¬ writesFalse maxW e w) →
      dlookup (l.foldl (stepBP maxW) st).widths w = some true
  | [], _, hex, _ => by simp at hex
  | e :: rest, st, hex, hW => by
    rw [List.foldl_cons]
    obtain ⟨e2, he2, hpx, hval⟩ := hex
    rcases List.mem_cons.mp he2 with he2 | he2
    · subst he2
      refine dlookup_foldl_true_persists maxW w rest _ ?_
        (fun e3 he3 => hW e3 (List.mem_cons_of_mem _ he3))
      obtain ⟨bp, v, u⟩ := e2
      cases u with
      | px =>
        have hv : v = w := hval
        subst hv
        simp only [stepBP]
        exact dlookup_dictInsert_self _ _ _
      | vw => simp at hpx
    · exact dlookup_foldl_px_true maxW w rest _ ⟨e2, he2, hpx, hval⟩
        (fun e3 he3 => hW e3 (List.mem_cons_of_mem _ he3))

/-! ### Properties of the surviving width list -/

theorem base_mem_survivors (inp : PlanInput) : baseWidth inp ∈ survivors inp := by
  have h1 : (baseWidth inp, true) ∈ mergedWidths inp :=
    mem_of_dlookup_eq_some _ _ _ (dlookup_merged_base inp)
  have h2 : (baseWidth inp, true) ∈ descWidths inp :=
    ((List.perm_insertionSort widthGE (mergedWidths inp)).mem_iff).mpr h1
  exact mem_decimate_of_required _ _ _ _ h2

theorem mem_survivors_mem_merged (inp : PlanInput) (w : Nat) (h : w ∈ survivors inp) :
    w ∈ (mergedWidths inp).map Prod.fst := by
  have h1 : w ∈ (descWidths inp).map Prod.fst :=
    (decimate_sublist inp.threshold (baseWidth inp) (descWidths inp)).mem h
  rcases List.mem_map.mp h1 with ⟨p, hp, hw⟩
  exact List.mem_map.mpr
    ⟨p, ((List.perm_insertionSort widthGE (mergedWidths inp)).mem_iff).mp hp, hw⟩

theorem survivors_sorted (inp : PlanInput) :
    List.Pairwise (fun a b => b ≤ a) (survivors inp) := by
  have hs : List.Pairwise widthGE (descWidths inp) :=
    List.sorted_insertionSort widthGE (mergedWidths inp)
  have hm : List.Pairwise (fun a b : Nat => b ≤ a) ((descWidths inp).map Prod.fst) := by
    rw [List.pairwise_map]
    exact hs
  exact List.Pairwise.sublist
    (decimate_sublist inp.threshold (baseWidth inp) (descWidths inp)) hm

theorem survivors_head_max (inp : PlanInput) :
    ∃ w, (survivors inp).head? = some w ∧ ∀ x ∈ survivors inp, x ≤ w := by
  cases hd : survivors inp with
  | nil =>
    have hb := base_mem_survivors inp
    rw [hd] at hb
    simp at hb
  | cons a t =>
    refine ⟨a, by simp, ?_⟩
    intro x hx
    have hp := survivors_sorted inp
    rw [hd] at hp
    rcases List.mem_cons.mp hx with h | h
    · exact h.le
    · exact (List.pairwise_cons.mp hp).1 x h

/-! ### Characterization of lists_to_dict -/

theorem foldl_dictInsert_append {β : Type} :
    ∀ (pairs : List (Nat × β)) (d : List (Nat × β)),
      (pairs.map Prod.fst).Nodup →
      (∀ k ∈ pairs.map Prod.fst, k ∉ d.map Prod.fst) →
      pairs.foldl (fun d2 p => dictInsert d2 p.1 p.2) d = d ++ pairs
  | [], d, _, _ => by simp
  | p :: rest, d, hnd, hdisj => by
    rw [List.foldl_cons]
    have h1 : p.1 ∉ d.map Prod.fst := hdisj p.1 (by simp)
    rw [dictInsert_of_not_mem _ _ _ h1]
    simp only [List.map_cons, List.nodup_cons] at hnd
    rw [foldl_dictInsert_append rest (d ++ [(p.1, p.2)]) hnd.2 ?_]
    · simp
    · intro k hk
      simp only [List.map_append, List.mem_append, not_or]
      refine ⟨hdisj k (List.mem_cons_of_mem _ hk), ?_⟩
      simp only [List.map_cons, List.map_nil, List.mem_singleton]
      intro hkp
      exact hnd.1 (hkp ▸ hk)

theorem map_fst_zip_take {β : Type} :
    ∀ (l1 : List Nat) (l2 : List β), (l1.zip l2).map Prod.fst = l1.take l2.length
  | [], _ => by simp
  | _ :: _, [] => by simp
  | a :: l1, b :: l2 => by
    simp [map_fst_zip_take l1 l2]

theorem lists_to_dict_characterization (keys values : List Nat) (dv : Nat)
    (hnd : keys.Nodup) :
    lists_to_dict keys values dv
      = keys.zip values ++ (keys.drop values.length).map (fun k => (k, dv)) := by
  have hkeys : keys.take values.length ++ keys.drop values.length = keys :=
    List.take_append_drop _ _
  have hnd2 : (keys.take values.length ++ keys.drop values.length).Nodup := by
    rw [hkeys]; exact hnd
  rw [List.nodup_append] at hnd2
  have hzip : (keys.zip values).foldl (fun d p => dictInsert d p.1 p.2)
      ([] : List (Nat × Nat)) = keys.zip values := by
    have h := foldl_dictInsert_append (keys.zip values) [] ?_ (by simp)
    · simpa using h
    · rw [map_fst_zip_take]
      exact hnd2.1
  show (keys.drop values.length).foldl (fun d k => dictInsert d k dv)
      ((keys.zip values).foldl (fun d p => dictInsert d p.1 p.2) []) = _
  rw [hzip]
  have hmap : (keys.drop values.length).foldl (fun d k => dictInsert d k dv)
      (keys.zip values)
      = ((keys.drop values.length).map (fun k => (k, dv))).foldl
          (fun d p => dictInsert d p.1 p.2) (keys.zip values) := by
    rw [List.foldl_map]
  rw [hmap]
  rw [foldl_dictInsert_append _ _ ?_ ?_]
  · simp only [List.map_map]
    have : (Prod.fst ∘ fun k => ((k : Nat), dv)) = id := rfl
    rw [this, List.map_id]
    exact hnd2.2.1
  · intro k hk
    simp only [List.map_map] at hk
    have hid : (Prod.fst ∘ fun k => ((k : Nat), dv)) = id := rfl
    rw [hid, List.map_id] at hk
    rw [map_fst_zip_take]
    exact fun htake => hnd2.2.2 htake hk

/-! ### Shape of the sizes attribute list -/


theorem sizesList_eq (inp : PlanInput) :
    sizesList inp
      = (ascEntries inp.sizeSpec).map (fun e => sizeEntry e.1 e.2.1 e.2.2)
        ++ [defaultEntryStr inp] := by
  have hsizes : (afterBPs inp).sizes
      = (ascEntries inp.sizeSpec).map (fun e => sizeEntry e.1 e.2.1 e.2.2) := by
    have h := foldl_stepBP_sizes (baseWidth inp) (ascEntries inp.sizeSpec) (initState inp)
    simpa [initState, afterBPs] using h
  have hlast : ((afterBPs inp).lastVal, (afterBPs inp).lastUnit)
      = lastBPSize inp.sizeSpec := by
    have h := foldl_stepBP_lastPair (baseWidth inp) (ascEntries inp.sizeSpec) (initState inp)
    simpa [initState, afterBPs, lastBPSize] using h
  unfold sizesList defaultEntryStr defaultSizePair
  rw [hsizes]
  cases hds : inp.defaultSize with
  | some s => rfl
  | none =>
    have h1 : (afterBPs inp).lastVal = (lastBPSize inp.sizeSpec).1 :=
      congrArg Prod.fst hlast
    have h2 : (afterBPs inp).lastUnit = (lastBPSize inp.sizeSpec).2 :=
      congrArg Prod.snd hlast
    rw [h1, h2]


/-! ### Claim theorems -/

/-- Claim C1, counterexample: the claim that every planned width is at
most the source width fails. In `pxOversizePlan` the explicit 300px size
is recorded as a required width with no clamping (line 285 of the
template tag), so the planner emits width 300 for a 100 px wide source. -/
theorem C1_counterexample :
    ¬ (∀ w ∈ survivors pxOversizePlan, w ≤ pxOversizePlan.sourceWidth) := by
  decide

/-- Claim C1, amended: every width the planner emits is at most the
source width unless it is the verbatim value of an explicit px-unit size
in the size spec; only explicit px widths can exceed the source width. -/
theorem C1_no_upscale_except_px (inp : PlanInput) (w : Nat) (hw : w ∈ survivors inp) :
    w ≤ inp.sourceWidth
      ∨ ∃ e ∈ inp.sizeSpec, e.2.2 = SizeUnit.px ∧ e.2.1 = w := by
  have h1 := mem_survivors_mem_merged inp w hw
  rcases List.mem_map.mp h1 with ⟨p, hp, hpw⟩
  rcases mem_merged_le_base_or_px inp p hp with h2 | h2
  · left
    have hbase : baseWidth inp ≤ inp.sourceWidth := by
      unfold baseWidth
      cases inp.maxWidth with
      | none => exact le_rfl
      | some m =>
        show (if m > inp.sourceWidth then inp.sourceWidth else m) ≤ inp.sourceWidth
        by_cases hm : m > inp.sourceWidth
        · rw [if_pos hm]
        · rw [if_neg hm]
          omega
    calc w = p.1 := hpw.symm
      _ ≤ baseWidth inp := h2
      _ ≤ inp.sourceWidth := hbase
  · right
    rw [← hpw]
    exact h2

/-- Witness for C1_no_upscale_except_px at a concrete input. -/
theorem C1_no_upscale_except_px_witness :
    2000 ∈ survivors examplePlan
      ∧ (2000 ≤ examplePlan.sourceWidth
        ∨ ∃ e ∈ examplePlan.sizeSpec, e.2.2 = SizeUnit.px ∧ e.2.1 = 2000) :=
  ⟨by decide, C1_no_upscale_except_px examplePlan 2000 (by decide)⟩

/-- Claim C2, counterexample: required-ness of a duplicate width is not
the OR of all claims. In `pxThenVwPlan` the px entry at breakpoint 100
claims width 50 as required, but the vw entry at breakpoint 200 computes
the same width 50 and overwrites the flag with `False` (line 292), so
width 50 is merged as optional and is even decimated away by the
threshold, although the claim says px widths are never skipped. -/
theorem C2_counterexample :
    (100, (50, SizeUnit.px)) ∈ pxThenVwPlan.sizeSpec
      ∧ dlookup (mergedWidths pxThenVwPlan) 50 = some false
      ∧ survivors pxThenVwPlan = [1000] := by
  decide

/-- Claim C2, amended: the merged flag of a duplicate width is the flag
of the last claim in ascending breakpoint processing order, so a width
claimed as required by a px-unit size stays required only when no vw-unit
entry computes the same candidate width; under that proviso the px claim
persists regardless of processing order. -/
theorem C2_required_persists_without_vw_collision (inp : PlanInput) (w : Nat)
    (hpx : ∃ e ∈ inp.sizeSpec, e.2.2 = SizeUnit.px ∧ e.2.1 = w)
    (hnovw : ∀ e ∈ inp.sizeSpec, e.2.2 = SizeUnit.vw → ceil100 (e.1 * e.2.1) ≠ w) :
    dlookup (mergedWidths inp) w = some true := by
  obtain ⟨e, he, hu, hv⟩ := hpx
  refine dlookup_foldl_px_true (baseWidth inp) w (ascEntries inp.sizeSpec) (initState inp)
    ⟨e, ((List.perm_insertionSort bpLE inp.sizeSpec).mem_iff).mpr he, hu, hv⟩ ?_
  intro e2 he2 hwf
  exact hnovw e2 (((List.perm_insertionSort bpLE inp.sizeSpec).mem_iff).mp he2)
    hwf.1 hwf.2.1

/-- Witness for C2_required_persists_without_vw_collision at a concrete
input. -/
theorem C2_required_persists_witness :
    dlookup (mergedWidths pxOnlyPlan) 300 = some true :=
  C2_required_persists_without_vw_collision pxOnlyPlan 300 (by decide) (by decide)

/-- Claim C3: after decimation, any two consecutive surviving widths
`a > b` satisfy `a - b ≥ threshold` or `b` is a required width of the
merged map; every kept width became the new comparison point. -/
theorem C3_consecutive_gap_or_required (inp : PlanInput) :
    List.Chain' (fun a b => b < a →
      (inp.threshold ≤ a - b ∨ dlookup (mergedWidths inp) b = some true))
      (survivors inp) := by
  have h := chain_decimate inp.threshold (descWidths inp) (baseWidth inp)
  refine h.imp ?_
  intro a b hab hba
  rcases hab with h2 | h2
  · right
    have hm : (b, true) ∈ mergedWidths inp :=
      ((List.perm_insertionSort widthGE (mergedWidths inp)).mem_iff).mp h2
    exact dlookup_eq_some_of_mem _ _ _ hm (nodup_keys_merged inp)
  · left
    omega

/-- Witness for C3_consecutive_gap_or_required at a concrete input. -/
theorem C3_consecutive_gap_or_required_witness :
    List.Chain' (fun a b => b < a →
      (examplePlan.threshold ≤ a - b
        ∨ dlookup (mergedWidths examplePlan) b = some true))
      (survivors examplePlan) :=
  C3_consecutive_gap_or_required examplePlan

/-- Claim C4: the base width equals `min(max_width or source width,
source width)` and always belongs to the surviving width set. -/
theorem C4_base_width_min_and_kept (inp : PlanInput) :
    baseWidth inp = min (inp.maxWidth.getD inp.sourceWidth) inp.sourceWidth
      ∧ baseWidth inp ∈ survivors inp := by
  refine ⟨?_, base_mem_survivors inp⟩
  unfold baseWidth
  cases inp.maxWidth with
  | none => simp
  | some m =>
    simp only [Option.getD_some]
    split <;> omega

/-- Witness for C4_base_width_min_and_kept at a concrete input. -/
theorem C4_base_width_min_and_kept_witness :
    baseWidth examplePlan
        = min (examplePlan.maxWidth.getD examplePlan.sourceWidth) examplePlan.sourceWidth
      ∧ baseWidth examplePlan ∈ survivors examplePlan :=
  C4_base_width_min_and_kept examplePlan

/-- Claim C5: every width merged as optional is strictly below the base
width, and is the ceiling value `ceil(bp * value / 100)` of some vw-unit
entry of the size spec (vw candidates at or above the base width are
discarded, so they never appear in the map). -/
theorem C5_optional_strictly_below_base (inp : PlanInput) (w : Nat)
    (h : dlookup (mergedWidths inp) w = some false) :
    w < baseWidth inp
      ∧ ∃ e ∈ inp.sizeSpec, e.2.2 = SizeUnit.vw ∧ ceil100 (e.1 * e.2.1) = w := by
  have hm : (w, false) ∈ mergedWidths inp := mem_of_dlookup_eq_some _ _ _ h
  exact ⟨mem_merged_false_lt_base inp (w, false) hm rfl,
    mem_merged_false_is_vw inp (w, false) hm rfl⟩

/-- Witness for C5_optional_strictly_below_base at a concrete input. -/
theorem C5_optional_strictly_below_base_witness :
    512 < baseWidth examplePlan
      ∧ ∃ e ∈ examplePlan.sizeSpec, e.2.2 = SizeUnit.vw ∧ ceil100 (e.1 * e.2.1) = 512 :=
  C5_optional_strictly_below_base examplePlan 512 (by decide)

/-- Claim C6, counterexample: positional sizes are not aligned to the
named config's breakpoints in ascending breakpoint order; they are
aligned to the breakpoint list in its stored order. With the breakpoint
list `[1920, 1024]` (the shipped default config lists breakpoints in
descending order) and one positional size 25, the code assigns 25 to
1920, whereas ascending-order alignment would assign it to 1024. -/
theorem C6_counterexample :
    lists_to_dict [1920, 1024] [25] 100 = [(1920, 25), (1024, 100)]
      ∧ lists_to_dict_specAscending [1920, 1024] [25] 100 = [(1024, 25), (1920, 100)]
      ∧ lists_to_dict [1920, 1024] [25] 100
          ≠ lists_to_dict_specAscending [1920, 1024] [25] 100 := by
  decide

/-- Claim C6, amended: the i-th positional size is assigned to the i-th
breakpoint of the config's breakpoint list in its stored order (not in
ascending breakpoint order); breakpoints beyond the positional size list
receive the default value 100, and extra positional sizes are ignored. -/
theorem C6_positional_alignment (keys values : List Nat) (dv : Nat)
    (hnd : keys.Nodup) :
    lists_to_dict keys values dv
      = keys.zip values ++ (keys.drop values.length).map (fun k => (k, dv)) :=
  lists_to_dict_characterization keys values dv hnd

/-- Witness for C6_positional_alignment at a concrete input. -/
theorem C6_positional_alignment_witness :
    lists_to_dict [1920, 1024] [25] 100
      = [1920, 1024].zip [25] ++ ([1920, 1024].drop 1).map (fun k => (k, 100)) :=
  C6_positional_alignment [1920, 1024] [25] 100 (by decide)

/-- Claim C7: on the worked example (breakpoints 1920 at 25vw and 1024 at
50vw, source width 2000, max_width unset, threshold 0) the planner
produces base width 2000, candidates 512 = ceil(1024 * 50 / 100) and
480 = ceil(1920 * 25 / 100), surviving widths exactly [2000, 512, 480] in
descending order, and exactly the expected sizes hints in order. -/
theorem C7_worked_example :
    baseWidth examplePlan = 2000
      ∧ mergedWidths examplePlan = [(2000, true), (512, false), (480, false)]
      ∧ survivors examplePlan = [2000, 512, 480]
      ∧ sizesList examplePlan
          = ["(max-width: 1024px) 50vw", "(max-width: 1920px) 25vw", "25vw"] :=
  ⟨rfl, by decide, by decide, by decide⟩

/-- Claim C8: the sizes-hint list is one `(max-width: {bp}px)
{value}{unit}` entry per breakpoint in ascending breakpoint order (the
sorted entry list is a permutation of the size spec), followed by exactly
one trailing default entry taken from the explicit default_size override
when given, else from the value and unit of the greatest breakpoint; its
length is always breakpoint count plus one, so an empty breakpoint set
yields the default entry alone. -/
theorem C8_sizes_hint_shape (inp : PlanInput) :
    sizesList inp
        = (ascEntries inp.sizeSpec).map (fun e => sizeEntry e.1 e.2.1 e.2.2)
          ++ [defaultEntryStr inp]
      ∧ (sizesList inp).length = inp.sizeSpec.length + 1
      ∧ List.Pairwise bpLE (ascEntries inp.sizeSpec)
      ∧ List.Perm (ascEntries inp.sizeSpec) inp.sizeSpec := by
  refine ⟨sizesList_eq inp, ?_, List.sorted_insertionSort bpLE inp.sizeSpec,
    List.perm_insertionSort bpLE inp.sizeSpec⟩
  rw [sizesList_eq]
  simp [ascEntries, (List.perm_insertionSort bpLE inp.sizeSpec).length_eq]

/-- Witness for C8_sizes_hint_shape at a concrete input. -/
theorem C8_sizes_hint_shape_witness :
    (sizesList examplePlan).length = examplePlan.sizeSpec.length + 1 :=
  (C8_sizes_hint_shape examplePlan).2.1

/-- Claim C9: for an SVG root without width and height attributes whose
viewBox splits on spaces into exactly four tokens, the degraded render
path returns the third token as width and the fourth as height, with unit
characters stripped. -/
theorem C9_viewbox_dimensions (root : SvgRoot) (vb t1 t2 w h : String)
    (hw : root.widthAttr = none) (hh : root.heightAttr = none)
    (hv : root.viewBox = some vb) (hsplit : splitSpaces vb = [t1, t2, w, h]) :
    get_svg_dimensions root = (some (stripUnits w), some (stripUnits h)) := by
  simp [get_svg_dimensions, hw, hh, hv, hsplit]

/-- Witness for C9_viewbox_dimensions: viewBox "0 0 100 50" yields
width "100" and height "50". -/
theorem C9_viewbox_dimensions_witness :
    get_svg_dimensions exampleSvg = (some "100", some "50") := by
  have h := C9_viewbox_dimensions exampleSvg "0 0 100 50" "0" "0" "100" "50"
    rfl rfl rfl rfl
  exact h

/-- Claim C10: the src, width and height attributes come from
`output_imgs[0]`, the first variant emitted by the descending generation
loop, whose width is the largest surviving width (never smaller than any
other emitted variant). -/
theorem C10_src_attrs_from_widest_variant (inp : PlanInput) :
    ∃ w, renderedSrcWidth inp = some w ∧ ∀ x ∈ survivors inp, x ≤ w :=
  survivors_head_max inp

/-- Witness for C10_src_attrs_from_widest_variant at a concrete input. -/
theorem C10_src_attrs_from_widest_variant_witness :
    ∃ w, renderedSrcWidth examplePlan = some w ∧ ∀ x ∈ survivors examplePlan, x ≤ w :=
  C10_src_attrs_from_widest_variant examplePlan
